import Mathlib

deriving instance DecidableEq for Except

/-!
Shallow embedding of `src/main.rs` (daniel-j-anderson-dev/calc), the core of
an interactive one-operator calculator: the operator resolver
(`Operation::from_str`, `Operation::fmt`), the expression parser
(`Expression::from_str`) and the evaluator (`Expression::evaluate`).

Modelling choices:
* A Rust `&str` is a sequence of Unicode scalar values, embedded as
  `List Char`; the byte-level view needed by the one byte-indexed slice in
  `Expression::from_str` is recovered by `Calculator.byteIdx` below via
  `Char.utf8Size`.
* Rust `f64` is embedded as `Calculator.F64`: a finite value carried as an
  exact rational, positive/negative infinity, or NaN.  Decimal-literal
  parsing keeps the exact rational value of the literal (IEEE rounding to
  the nearest double, and overflow of huge exponents to infinity, are not
  modelled; every property below evaluates numbers only at points where the
  double is exact).  IEEE `==`/`!=` is `F64.ieeeEq`, which is false on NaN
  and collapses the two zeroes, exactly as the exact-rational embedding does.
* `f64::powf` is a transcendental libm operation; `F64.powf` models the
  subdomain where its result is specified exactly (finite base, integral
  finite exponent, small exact results) and collapses the remaining
  transcendental and special-value cases to NaN, which no property below
  inspects.
-/

namespace Calculator

/-- Model of Rust `f64`: an exact finite rational, a signed infinity
(`neg = true` for negative infinity), or NaN. -/
inductive F64 where
  | finite (q : ℚ)
  | infinity (neg : Bool)
  | nan
deriving DecidableEq, Repr

/-- IEEE-754 equality (`==` on `f64`): NaN compares unequal to everything,
infinities compare by sign, finite values by numeric value (the Rust `-0.0`
and `0.0` are the single rational `0` here, matching IEEE `==`). -/
def F64.ieeeEq : F64 → F64 → Bool
  | .finite a, .finite b => a == b
  | .infinity a, .infinity b => a == b
  | _, _ => false

/-- IEEE negation of a double. -/
def F64.neg : F64 → F64
  | .finite q => .finite (-q)
  | .infinity s => .infinity (!s)
  | .nan => .nan

/-- IEEE addition: exact on finite values (rounding not modelled),
usual special-value rules otherwise. -/
def F64.add : F64 → F64 → F64
  | .finite a, .finite b => .finite (a + b)
  | .finite _, .infinity s => .infinity s
  | .infinity s, .finite _ => .infinity s
  | .infinity s, .infinity t => if s = t then .infinity s else .nan
  | _, _ => .nan

/-- IEEE subtraction, as addition of the negation. -/
def F64.sub (a b : F64) : F64 := a.add b.neg

/-- IEEE multiplication: exact on finite values, usual special-value rules
otherwise (`0 * inf = nan`). -/
def F64.mul : F64 → F64 → F64
  | .finite a, .finite b => .finite (a * b)
  | .finite a, .infinity s => if a = 0 then .nan else .infinity (xor (a < 0) s)
  | .infinity s, .finite a => if a = 0 then .nan else .infinity (xor s (a < 0))
  | .infinity s, .infinity t => .infinity (xor s t)
  | _, _ => .nan

/-- IEEE division: exact on finite values with a nonzero divisor, usual
special-value rules otherwise (the sign of a zero quotient is not tracked). -/
def F64.div : F64 → F64 → F64
  | .finite a, .finite b =>
      if b = 0 then (if a = 0 then .nan else .infinity (decide (a < 0))) else .finite (a / b)
  | .finite _, .infinity _ => .finite 0
  | .infinity s, .finite b => .infinity (xor s (decide (b < 0)))
  | .infinity _, .infinity _ => .nan
  | _, _ => .nan

/-- Iterated rational product (`q ^ n` computed structurally). -/
def qpowNat (q : ℚ) : Nat → ℚ
  | 0 => 1
  | n + 1 => q * qpowNat q n

/-- Model of Rust `f64::powf`.  `powf` is a transcendental libm operation;
this models the subdomain where IEEE exponentiation is exact (finite base,
integral finite exponent, with `0` raised to a negative power giving
positive infinity) and collapses every remaining transcendental or
special-value case to NaN.  No property proved below looks at the collapsed
cases. -/
def F64.powf : F64 → F64 → F64
  | .finite a, .finite b =>
      if b.den = 1 then
        if 0 ≤ b.num then .finite (qpowNat a b.num.toNat)
        else if a = 0 then .infinity false
        else .finite ((qpowNat a (-b.num).toNat)⁻¹)
      else .nan
  | _, _ => .nan

/-- Rust `char::is_whitespace`: membership in the Unicode `White_Space`
property (U+0009–U+000D, U+0020, U+0085, U+00A0, U+1680, U+2000–U+200A,
U+2028, U+2029, U+202F, U+205F, U+3000). -/
def rustIsWhitespace (c : Char) : Bool :=
  (0x09 ≤ c.toNat && c.toNat ≤ 0x0D) || c.toNat == 0x20 || c.toNat == 0x85 ||
  c.toNat == 0xA0 || c.toNat == 0x1680 || (0x2000 ≤ c.toNat && c.toNat ≤ 0x200A) ||
  c.toNat == 0x2028 || c.toNat == 0x2029 || c.toNat == 0x202F ||
  c.toNat == 0x205F || c.toNat == 0x3000

/-- The whitespace-removal loop at the top of `Expression::from_str`: keep
every character that is not whitespace (interior whitespace included). -/
def strip (s : List Char) : List Char := s.filter (fun c => !rustIsWhitespace c)

/-- The left-operand scan condition of `Expression::from_str`:
`character.is_digit(10) || character == '.'`. -/
def isDigitOrDot (c : Char) : Bool := c.isDigit || c == '.'

/-- The left-operand scan loop of `Expression::from_str`: walk the stripped
string, accumulating digit/`.` characters; on the first other character
record its index and stop.  Returns the accumulated token and the recorded
index (`none` when the loop ran off the end without breaking, in which case
the Rust `current_index` keeps its initial value `0`). -/
def scanLhs : List Char → List Char × Option Nat
  | [] => ([], none)
  | c :: rest =>
      if isDigitOrDot c then
        let r := scanLhs rest
        (c :: r.1, r.2.map (fun i => i + 1))
      else ([], some 0)

/-- The `lhs` token accumulated by the scan loop. -/
def lhsToken (t : List Char) : List Char := (scanLhs t).1

/-- The Rust `current_index` after the scan loop: the index of the first
non-digit/`.` character, or its initial value `0` when none was found. -/
def currentIndex (t : List Char) : Nat := (scanLhs t).2.getD 0

/-- Value of a string of ASCII decimal digits, most significant first. -/
def digitsToNat (ds : List Char) : Nat :=
  ds.foldl (fun acc c => 10 * acc + (c.toNat - 48)) 0

/-- Leading optional sign of a float literal; returns whether the value is
negated and the remainder of the input. -/
def parseSign : List Char → Bool × List Char
  | '+' :: rest => (false, rest)
  | '-' :: rest => (true, rest)
  | s => (false, s)

/-- Split a maximal leading run of ASCII digits from the input. -/
def splitDigits (s : List Char) : List Char × List Char :=
  (s.takeWhile Char.isDigit, s.dropWhile Char.isDigit)

/-- Exponent suffix of a Rust float literal: either nothing, or
`('e' | 'E') Sign? Digit+` consuming the whole remainder.  Returns the
exponent as a sign flag and magnitude. -/
def parseExpPart : List Char → Option (Bool × Nat)
  | [] => some (false, 0)
  | c :: rest =>
      if c = 'e' ∨ c = 'E' then
        let sr := parseSign rest
        let dr := splitDigits sr.2
        if dr.1 ≠ [] ∧ dr.2 = [] then some (sr.1, digitsToNat dr.1) else none
      else none

/-- Apply a decimal exponent to an exact rational. -/
def applyExp (q : ℚ) (e : Bool × Nat) : ℚ :=
  if e.1 then q / qpowNat 10 e.2 else q * qpowNat 10 e.2

/-- The `Number` production of Rust's `f64::from_str` grammar:
`(Digit+ | Digit+ '.' Digit* | Digit* '.' Digit+) Exp?`, with the exact
rational value of the literal. -/
def parseNumber (s : List Char) : Option ℚ :=
  let ir := splitDigits s
  match ir.2 with
  | '.' :: r2 =>
      let fr := splitDigits r2
      if ir.1 = [] ∧ fr.1 = [] then none
      else
        match parseExpPart fr.2 with
        | some e =>
            some (applyExp ((digitsToNat ir.1 : ℚ) +
              (digitsToNat fr.1 : ℚ) / qpowNat 10 fr.1.length) e)
        | none => none
  | _ =>
      if ir.1 = [] then none
      else
        match parseExpPart ir.2 with
        | some e => some (applyExp (digitsToNat ir.1 : ℚ) e)
        | none => none

/-- Rust `f64::from_str`: optional sign, then a case-insensitive `inf`,
`infinity` or `nan`, or a decimal `Number`.  Returns `none` exactly when
Rust returns `ParseFloatError` (the exact rational value stands in for the
rounded double; see the module comment). -/
def parseF64 (s : List Char) : Option F64 :=
  let sr := parseSign s
  let low := sr.2.map Char.toLower
  if low = ['i', 'n', 'f'] ∨ low = ['i', 'n', 'f', 'i', 'n', 'i', 't', 'y'] then
    some (.infinity sr.1)
  else if low = ['n', 'a', 'n'] then some .nan
  else (parseNumber sr.2).map (fun q => .finite (if sr.1 then -q else q))

/-- Display string of Rust's `ParseFloatError`: `"cannot parse float from
empty string"` for empty input, `"invalid float literal"` otherwise. -/
def floatErrMsg (s : List Char) : String :=
  if s = [] then "cannot parse float from empty string" else "invalid float literal"

/-- The closed enumeration of supported operations (`enum Operation`). -/
inductive Operation where
  | Add
  | Subtract
  | Multiply
  | Divide
  | Exponential
deriving DecidableEq, Repr

/-- `Operation::from_str`: exactly the five one-character tokens parse; any
other string fails with the message listing the supported symbols. -/
def Operation.from_str (s : String) : Except String Operation :=
  if s = "+" then .ok .Add
  else if s = "-" then .ok .Subtract
  else if s = "*" then .ok .Multiply
  else if s = "/" then .ok .Divide
  else if s = "^" then .ok .Exponential
  else .error "Invalid operator. Supported operators: + - * / ^"

/-- The display symbol written by `impl Display for Operation`. -/
def Operation.symbol : Operation → String
  | .Add => "+"
  | .Subtract => "-"
  | .Multiply => "*"
  | .Divide => "/"
  | .Exponential => "^"

/-- `struct Expression`: left operand, right operand, operation. -/
structure Expression where
  lhs : F64
  rhs : F64
  operation : Operation
deriving DecidableEq, Repr

/-- `Expression::evaluate`: total on `Add`/`Subtract`/`Multiply`/
`Exponential`; `Divide` is guarded by `self.rhs != 0.0` (IEEE inequality)
and otherwise fails with the divide-by-zero error. -/
def Expression.evaluate (e : Expression) : Except String F64 :=
  match e.operation with
  | .Add => .ok (e.lhs.add e.rhs)
  | .Subtract => .ok (e.lhs.sub e.rhs)
  | .Multiply => .ok (e.lhs.mul e.rhs)
  | .Exponential => .ok (e.lhs.powf e.rhs)
  | .Divide =>
      if e.rhs.ieeeEq (.finite 0) = false then .ok (e.lhs.div e.rhs)
      else .error "Divide by zero error"

/-- The four failure sites of `Expression::from_str`, each carrying the
detail string the Rust code interpolates into its message. -/
inductive ParseError where
  | invalidLeftOperand (detail : String)
  | missingOperator
  | invalidOperator (detail : String)
  | invalidRightOperand (detail : String)
deriving DecidableEq, Repr

/-- `Expression::from_str`: strip whitespace, scan the leading digit/`.`
token as `lhs`, parse the character at `current_index` as the operation,
parse the remainder after `current_index + 1` as `rhs`.  The Rust remainder
is the byte slice `string[current_index + 1..]`; on every path that reaches
it the first `current_index + 1` characters are one-byte ASCII characters
(proved below), so it is the character suffix used here. -/
def Expression.from_str (original : List Char) : Except ParseError Expression :=
  match parseF64 (lhsToken (strip original)) with
  | none => .error (.invalidLeftOperand (floatErrMsg (lhsToken (strip original))))
  | some lhs =>
      match (strip original).get? (currentIndex (strip original)) with
      | none => .error .missingOperator
      | some c =>
          match Operation.from_str (String.mk [c]) with
          | .error e => .error (.invalidOperator e)
          | .ok operation =>
              match parseF64 ((strip original).drop (currentIndex (strip original) + 1)) with
              | none =>
                  .error (.invalidRightOperand
                    (floatErrMsg ((strip original).drop (currentIndex (strip original) + 1))))
              | some rhs => .ok { lhs := lhs, rhs := rhs, operation := operation }

/-- Total UTF-8 byte length of a character sequence (the length of the Rust
`String` holding it). -/
def utf8Total (t : List Char) : Nat := (t.map Char.utf8Size).sum

/-- Byte offset of the character at index `k` in the UTF-8 encoding (the
byte length of the first `k` characters). -/
def byteIdx (t : List Char) (k : Nat) : Nat := ((t.take k).map Char.utf8Size).sum

lemma parseF64_nil : parseF64 [] = none := rfl

lemma scanLhs_of_all_digits (t : List Char) (h : ∀ c ∈ t, isDigitOrDot c = true) :
    scanLhs t = (t, none) := by
  induction t with
  | nil => rfl
  | cons c rest ih =>
      have hc : isDigitOrDot c = true := h c (List.mem_cons_self c rest)
      simp [scanLhs, hc, ih (fun d hd => h d (List.mem_cons_of_mem c hd))]

lemma scanLhs_snd_some (t : List Char) (i : Nat) (h : (scanLhs t).2 = some i) :
    i < t.length ∧ ∀ j, j < i → ∃ d, t.get? j = some d ∧ isDigitOrDot d = true := by
  induction t generalizing i with
  | nil => simp [scanLhs] at h
  | cons c rest ih =>
      by_cases hc : isDigitOrDot c = true
      · simp only [scanLhs, hc, if_true] at h
        cases hs : (scanLhs rest).2 with
        | none => rw [hs] at h; simp at h
        | some j =>
            rw [hs] at h
            simp only [Option.map_some', Option.some.injEq] at h
            obtain ⟨hlt, hall⟩ := ih j hs
            subst h
            refine ⟨by simpa using Nat.succ_lt_succ hlt, fun k hk => ?_⟩
            cases k with
            | zero => exact ⟨c, rfl, hc⟩
            | succ k' =>
                obtain ⟨d, hd, hdd⟩ := hall k' (Nat.lt_of_succ_lt_succ hk)
                exact ⟨d, by simpa using hd, hdd⟩
      · simp only [scanLhs, hc, if_false, Bool.false_eq_true] at h
        simp only [Option.some.injEq] at h
        rw [← h]
        exact ⟨by simp, fun k hk => absurd hk (Nat.not_lt_zero k)⟩

lemma scanLhs_snd_none (t : List Char) (h : (scanLhs t).2 = none) :
    (scanLhs t).1 = t ∧ ∀ c ∈ t, isDigitOrDot c = true := by
  induction t with
  | nil => simp [scanLhs]
  | cons c rest ih =>
      by_cases hc : isDigitOrDot c = true
      · simp only [scanLhs, hc, if_true] at h ⊢
        cases hs : (scanLhs rest).2 with
        | none =>
            obtain ⟨h1, h2⟩ := ih hs
            refine ⟨by simp [h1], ?_⟩
            intro d hd
            rcases List.mem_cons.mp hd with rfl | hd2
            · exact hc
            · exact h2 d hd2
        | some j => rw [hs] at h; simp at h
      · simp [scanLhs, hc] at h

lemma get_currentIndex_some (t : List Char) (h : (parseF64 (lhsToken t)).isSome = true) :
    ∃ c, t.get? (currentIndex t) = some c := by
  cases hs : (scanLhs t).2 with
  | some i =>
      have hi := (scanLhs_snd_some t i hs).1
      exact ⟨t.get ⟨i, hi⟩, by simp [currentIndex, hs, List.get?_eq_get hi]⟩
  | none =>
      cases t with
      | nil => simp [lhsToken, scanLhs, parseF64_nil] at h
      | cons c rest => exact ⟨c, by simp [currentIndex, hs]⟩

lemma opChar_of_from_str_ok (c : Char) (op : Operation)
    (h : Operation.from_str (String.mk [c]) = .ok op) :
    c ∈ ['+', '-', '*', '/', '^'] := by
  unfold Operation.from_str at h
  split_ifs at h with h1 h2 h3 h4 h5
  · have hd : [c] = ['+'] := congrArg String.data h1
    simp at hd; simp [hd]
  · have hd : [c] = ['-'] := congrArg String.data h2
    simp at hd; simp [hd]
  · have hd : [c] = ['*'] := congrArg String.data h3
    simp at hd; simp [hd]
  · have hd : [c] = ['/'] := congrArg String.data h4
    simp at hd; simp [hd]
  · have hd : [c] = ['^'] := congrArg String.data h5
    simp at hd; simp [hd]

lemma toNat_le_of_isDigitOrDot {c : Char} (h : isDigitOrDot c = true) : c.toNat ≤ 127 := by
  simp [isDigitOrDot, Char.isDigit] at h
  rcases h with ⟨h1, h2⟩ | h2
  · rw [UInt32.le_def, BitVec.le_def] at h2
    exact le_trans h2 (by norm_num)
  · subst h2; decide

lemma utf8Size_eq_one {c : Char} (h : c.toNat ≤ 127) : c.utf8Size = 1 := by
  unfold Char.utf8Size
  rw [if_pos]
  rw [UInt32.le_def, BitVec.le_def]
  exact h

lemma byteIdx_eq_of_ascii (t : List Char) (k : Nat) (hk : k ≤ t.length)
    (h : ∀ j, j < k → ∀ d, t.get? j = some d → d.utf8Size = 1) :
    byteIdx t k = k := by
  induction t generalizing k with
  | nil =>
      simp at hk
      subst hk
      rfl
  | cons c rest ih =>
      cases k with
      | zero => rfl
      | succ k' =>
          have hc : c.utf8Size = 1 := h 0 (Nat.succ_pos _) c rfl
          have hrest : byteIdx rest k' = k' :=
            ih k' (Nat.le_of_succ_le_succ hk)
              (fun j hj d hd => h (j + 1) (Nat.succ_lt_succ hj) d (by simpa using hd))
          simp [byteIdx, hc] at hrest ⊢
          omega

lemma byteIdx_le_total (t : List Char) (k : Nat) : byteIdx t k ≤ utf8Total t := by
  conv_rhs => rw [utf8Total, ← List.take_append_drop k t]
  rw [List.map_append, List.sum_append]
  exact Nat.le_add_right _ _

lemma from_str_digitOrDot (c : Char) (h : isDigitOrDot c = true) :
    Operation.from_str (String.mk [c]) =
      .error "Invalid operator. Supported operators: + - * / ^" := by
  unfold Operation.from_str
  split_ifs with h1 h2 h3 h4 h5
  · have hd : [c] = ['+'] := congrArg String.data h1
    simp at hd; subst hd; exact absurd h (by decide)
  · have hd : [c] = ['-'] := congrArg String.data h2
    simp at hd; subst hd; exact absurd h (by decide)
  · have hd : [c] = ['*'] := congrArg String.data h3
    simp at hd; subst hd; exact absurd h (by decide)
  · have hd : [c] = ['/'] := congrArg String.data h4
    simp at hd; subst hd; exact absurd h (by decide)
  · have hd : [c] = ['^'] := congrArg String.data h5
    simp at hd; subst hd; exact absurd h (by decide)
  · rfl

/-- C2: for every `Expression`, `evaluate` fails exactly when the operation
is `Divide` and the right operand is IEEE-equal to `0.0`, and then with the
divide-by-zero error; in every other case it succeeds with the operation
applied to the two operands (`left + right`, `left - right`,
`left * right`, `left / right`, `left` to the power `right`). -/
theorem claim_C2_evaluate_spec (e : Expression) :
    e.evaluate =
      if e.operation = .Divide ∧ e.rhs.ieeeEq (.finite 0) = true then
        .error "Divide by zero error"
      else
        .ok (match e.operation with
          | .Add => e.lhs.add e.rhs
          | .Subtract => e.lhs.sub e.rhs
          | .Multiply => e.lhs.mul e.rhs
          | .Divide => e.lhs.div e.rhs
          | .Exponential => e.lhs.powf e.rhs) := by
  obtain ⟨l, r, op⟩ := e
  cases op <;> simp [Expression.evaluate]
  by_cases hz : F64.ieeeEq r (.finite 0) = true
  · simp [hz]
  · simp [hz, Bool.not_eq_true _ ▸ hz]

/-- C4: each of the five operator symbols parses successfully, and the
display symbol of the parsed operation is the original symbol
(parse/display round-trip over the closed five-element enumeration). -/
theorem claim_C4_round_trip (s : String) (hs : s ∈ ["+", "-", "*", "/", "^"]) :
    ∃ op, Operation.from_str s = .ok op ∧ op.symbol = s := by
  simp at hs
  rcases hs with rfl | rfl | rfl | rfl | rfl
  · exact ⟨.Add, by decide, rfl⟩
  · exact ⟨.Subtract, by decide, rfl⟩
  · exact ⟨.Multiply, by decide, rfl⟩
  · exact ⟨.Divide, by decide, rfl⟩
  · exact ⟨.Exponential, by decide, rfl⟩

theorem claim_C4_round_trip_witness :
    ("+" : String) ∈ ["+", "-", "*", "/", "^"] ∧
      ∃ op, Operation.from_str "+" = .ok op ∧ op.symbol = "+" :=
  ⟨by simp, claim_C4_round_trip "+" (by simp)⟩

/-- C6: `Operation::from_str` succeeds exactly on the five one-character
tokens `+ - * / ^`; every other string (any other single character, the
empty string, any multi-character string) fails with the error whose
message enumerates the supported symbols. -/
theorem claim_C6_operator_domain (s : String) :
    ((∃ op, Operation.from_str s = .ok op) ↔ s ∈ ["+", "-", "*", "/", "^"]) ∧
      (s ∉ ["+", "-", "*", "/", "^"] →
        Operation.from_str s = .error "Invalid operator. Supported operators: + - * / ^") := by
  unfold Operation.from_str
  split_ifs with h1 h2 h3 h4 h5 <;> simp_all

theorem claim_C6_operator_domain_witness :
    ("x" : String) ∉ ["+", "-", "*", "/", "^"] ∧
      Operation.from_str "x" = .error "Invalid operator. Supported operators: + - * / ^" :=
  ⟨by simp, (claim_C6_operator_domain "x").2 (by simp)⟩

/-- C5: `Expression::from_str` factors through whitespace removal, so any
two inputs that agree after deleting every whitespace character parse to
the same result (the concrete instance `"3+4"` versus `" 3 + 4 "` is the
witness below). -/
theorem claim_C5_whitespace_insensitive (a b : List Char) (h : strip a = strip b) :
    Expression.from_str a = Expression.from_str b := by
  unfold Expression.from_str
  rw [h]

theorem claim_C5_whitespace_insensitive_witness :
    strip "3+4".data = strip " 3 + 4 ".data ∧
      Expression.from_str "3+4".data = Expression.from_str " 3 + 4 ".data :=
  ⟨by decide, claim_C5_whitespace_insensitive "3+4".data " 3 + 4 ".data (by decide)⟩

/-- C8: the spec's worked examples: `"3+4"` parses to the expression with
left `3.0`, right `4.0`, operation `Add`, which evaluates to `7.0`; and
`"2^10"` parses to left `2.0`, right `10.0`, operation `Exponential`
(Power), which evaluates to `1024.0`. -/
theorem claim_C8_worked_examples :
    Expression.from_str "3+4".data = .ok ⟨.finite 3, .finite 4, .Add⟩ ∧
      Expression.evaluate ⟨.finite 3, .finite 4, .Add⟩ = .ok (.finite 7) ∧
      Expression.from_str "2^10".data = .ok ⟨.finite 2, .finite 10, .Exponential⟩ ∧
      Expression.evaluate ⟨.finite 2, .finite 10, .Exponential⟩ = .ok (.finite 1024) := by
  refine ⟨?_, ?_, ?_, ?_⟩ <;> with_unfolding_all rfl

/-- C1 (counterexample): on input `"5"` — non-empty, all digits —
`Expression::from_str` does not fail with the missing-operator error; it
fails with the invalid-operator error, because `current_index` keeps its
initial value `0` and the digit `5` itself is handed to the operator
parser. -/
theorem claim_C1_counterexample :
    Expression.from_str "5".data =
        .error (.invalidOperator "Invalid operator. Supported operators: + - * / ^") ∧
      Expression.from_str "5".data ≠ .error .missingOperator := by
  constructor
  · with_unfolding_all rfl
  · with_unfolding_all decide

/-- C1 (amended): an input whose whitespace-stripped form is non-empty and
all digits/`.` always fails, but never with the missing-operator error:
when the digit token is a valid float literal (e.g. `"5"`) the character at
index `0` is treated as the operator position and parsing fails with the
invalid-operator error; otherwise (e.g. `"1.2.3"`) it fails with the
invalid-left-operand error. -/
theorem claim_C1_amended (s : List Char) (h1 : strip s ≠ [])
    (h2 : ∀ c ∈ strip s, isDigitOrDot c = true) :
    Expression.from_str s =
      .error (if (parseF64 (strip s)).isSome then
          .invalidOperator "Invalid operator. Supported operators: + - * / ^"
        else .invalidLeftOperand "invalid float literal") := by
  have hscan := scanLhs_of_all_digits (strip s) h2
  have hlt : lhsToken (strip s) = strip s := by rw [lhsToken, hscan]
  have hci : currentIndex (strip s) = 0 := by rw [currentIndex, hscan]; rfl
  unfold Expression.from_str
  rw [hlt, hci]
  cases hp : parseF64 (strip s) with
  | none => simp [floatErrMsg, h1]
  | some v =>
      obtain ⟨c, rest, ht⟩ : ∃ c rest, strip s = c :: rest := by
        cases hss : strip s with
        | nil => exact absurd hss h1
        | cons c rest => exact ⟨c, rest, rfl⟩
      have hcd : isDigitOrDot c = true := h2 c (ht ▸ List.mem_cons_self c rest)
      rw [ht]
      simp [from_str_digitOrDot c hcd]

theorem claim_C1_amended_witness :
    strip "5".data ≠ [] ∧ (∀ c ∈ strip "5".data, isDigitOrDot c = true) ∧
      Expression.from_str "5".data =
        .error (if (parseF64 (strip "5".data)).isSome then
            .invalidOperator "Invalid operator. Supported operators: + - * / ^"
          else .invalidLeftOperand "invalid float literal") :=
  ⟨by decide, by decide, claim_C1_amended "5".data (by decide) (by decide)⟩

/-- C3: a leading `-` is not a unary minus: when the stripped input starts
with `-`, that position (`current_index = 0`) is taken as the operator
position, the left-operand token is empty, and parsing fails with the
invalid-left-operand error (whose detail is the empty-string float-parse
message). -/
theorem claim_C3_leading_minus (s : List Char) (h : (strip s).head? = some '-') :
    currentIndex (strip s) = 0 ∧ lhsToken (strip s) = [] ∧
      Expression.from_str s =
        .error (.invalidLeftOperand "cannot parse float from empty string") := by
  obtain ⟨rest, ht⟩ : ∃ rest, strip s = '-' :: rest := by
    cases hss : strip s with
    | nil => simp [hss] at h
    | cons c r =>
        rw [hss] at h
        simp at h
        exact ⟨r, by rw [h]⟩
  have hscan : scanLhs (strip s) = ([], some 0) := by
    rw [ht]
    simp [scanLhs, show isDigitOrDot '-' = false from by decide]
  refine ⟨by rw [currentIndex, hscan]; rfl, by rw [lhsToken, hscan], ?_⟩
  unfold Expression.from_str
  rw [lhsToken, currentIndex, hscan]
  simp [parseF64_nil, floatErrMsg]

theorem claim_C3_leading_minus_witness :
    (strip "-5+3".data).head? = some '-' ∧
      (currentIndex (strip "-5+3".data) = 0 ∧ lhsToken (strip "-5+3".data) = [] ∧
        Expression.from_str "-5+3".data =
          .error (.invalidLeftOperand "cannot parse float from empty string")) :=
  ⟨by decide, claim_C3_leading_minus "-5+3".data (by decide)⟩

/-- C7: when the left operand parses and the character at the operator
position parses as an operation, but the remainder after the operator
position is empty or not a valid float literal, `Expression::from_str`
fails with the invalid-right-operand error carrying the underlying
float-parse message. -/
theorem claim_C7_invalid_rhs (s : List Char) (c : Char) (op : Operation)
    (h1 : (parseF64 (lhsToken (strip s))).isSome = true)
    (h2 : (strip s).get? (currentIndex (strip s)) = some c)
    (h3 : Operation.from_str (String.mk [c]) = .ok op)
    (h4 : parseF64 ((strip s).drop (currentIndex (strip s) + 1)) = none) :
    Expression.from_str s =
      .error (.invalidRightOperand
        (floatErrMsg ((strip s).drop (currentIndex (strip s) + 1)))) := by
  obtain ⟨v, hv⟩ := Option.isSome_iff_exists.mp h1
  unfold Expression.from_str
  simp only [hv, h2, h3, h4]

theorem claim_C7_invalid_rhs_witness :
    (parseF64 (lhsToken (strip "5+".data))).isSome = true ∧
      (strip "5+".data).get? (currentIndex (strip "5+".data)) = some '+' ∧
      Operation.from_str (String.mk ['+']) = .ok .Add ∧
      parseF64 ((strip "5+".data).drop (currentIndex (strip "5+".data) + 1)) = none ∧
      Expression.from_str "5+".data =
        .error (.invalidRightOperand
          (floatErrMsg ((strip "5+".data).drop (currentIndex (strip "5+".data) + 1)))) :=
  ⟨by decide, by decide, by decide, by decide,
    claim_C7_invalid_rhs "5+".data '+' .Add (by decide) (by decide) (by decide) (by decide)⟩

/-- C9: `Expression::from_str` never returns the missing-operator error on
any input: whenever the left-operand parse succeeds the stripped string is
non-empty and `current_index` (`0` when no non-digit character was found,
the index of the first non-digit character otherwise) always points at an
existing character, so the `None` branch of the operator lookup is
unreachable. -/
theorem claim_C9_missing_operator_unreachable (s : List Char) :
    Expression.from_str s ≠ .error .missingOperator := by
  unfold Expression.from_str
  cases hp : parseF64 (lhsToken (strip s)) with
  | none => simp
  | some v =>
      obtain ⟨c, hc⟩ := get_currentIndex_some (strip s) (by rw [hp]; rfl)
      rw [hc]
      cases ho : Operation.from_str (String.mk [c]) with
      | error e => simp [ho]
      | ok op =>
          cases hr : parseF64 ((strip s).drop (currentIndex (strip s) + 1)) <;>
            simp [ho, hr]

/-- C10: `Expression::from_str` is a total function, and the one
byte-indexed operation in it — the slice `string[current_index + 1..]`
taken for the right operand — is reached only after the character at
`current_index` parsed as one of the five one-byte ASCII operator symbols
and every character before it is an ASCII digit or `.`; hence the byte
offset `current_index + 1` equals the character offset, is within the byte
length of the stripped string, and lies on a UTF-8 character boundary,
for every input including ones with multi-byte characters. -/
theorem claim_C10_slice_in_bounds (s : List Char) (c : Char) (op : Operation)
    (h1 : (strip s).get? (currentIndex (strip s)) = some c)
    (h2 : Operation.from_str (String.mk [c]) = .ok op) :
    byteIdx (strip s) (currentIndex (strip s) + 1) = currentIndex (strip s) + 1 ∧
      currentIndex (strip s) + 1 ≤ (strip s).length ∧
      byteIdx (strip s) (currentIndex (strip s) + 1) ≤ utf8Total (strip s) := by
  have hlen : currentIndex (strip s) < (strip s).length := by
    by_contra hle
    rw [List.get?_eq_none.mpr (Nat.le_of_not_lt hle)] at h1
    cases h1
  have hc1 : c.utf8Size = 1 := by
    have hmem := opChar_of_from_str_ok c op h2
    simp at hmem
    rcases hmem with rfl | rfl | rfl | rfl | rfl <;> decide
  have hpre : ∀ j, j < currentIndex (strip s) → ∀ d,
      (strip s).get? j = some d → d.utf8Size = 1 := by
    intro j hj d hd
    cases hs : (scanLhs (strip s)).2 with
    | none => rw [currentIndex, hs] at hj; simp at hj
    | some i =>
        rw [currentIndex, hs] at hj
        obtain ⟨d2, hd2, hdd⟩ := (scanLhs_snd_some (strip s) i hs).2 j (by simpa using hj)
        rw [hd] at hd2
        injection hd2 with he
        rw [he]
        exact utf8Size_eq_one (toNat_le_of_isDigitOrDot hdd)
  have hfull : ∀ j, j < currentIndex (strip s) + 1 → ∀ d,
      (strip s).get? j = some d → d.utf8Size = 1 := by
    intro j hj d hd
    rcases Nat.lt_succ_iff_lt_or_eq.mp hj with hlt | rfl
    · exact hpre j hlt d hd
    · rw [h1] at hd
      injection hd with he
      rw [← he]
      exact hc1
  exact ⟨byteIdx_eq_of_ascii (strip s) _ (Nat.succ_le_of_lt hlen) hfull,
    Nat.succ_le_of_lt hlen, byteIdx_le_total _ _⟩

theorem claim_C10_slice_in_bounds_witness :
    (strip "5+π".data).get? (currentIndex (strip "5+π".data)) = some '+' ∧
      Operation.from_str (String.mk ['+']) = .ok .Add ∧
      (byteIdx (strip "5+π".data) (currentIndex (strip "5+π".data) + 1) =
          currentIndex (strip "5+π".data) + 1 ∧
        currentIndex (strip "5+π".data) + 1 ≤ (strip "5+π".data).length ∧
        byteIdx (strip "5+π".data) (currentIndex (strip "5+π".data) + 1) ≤
          utf8Total (strip "5+π".data)) :=
  ⟨by decide, by decide,
    claim_C10_slice_in_bounds "5+π".data '+' .Add (by decide) (by decide)⟩

end Calculator
